import Mathlib

/-!
Shallow embedding of the WebSocket hub of `internal/models/websocket.go`
(the variant with per-user connection slices: `TeamChannels :
map[string]map[string]map[string][]*Client`), together with the client
read-pump relay step and the JSON envelope encoder, and proofs of the
spec's claims about them.

Modelling conventions:
* Go maps are modelled as association lists with unique keys
  (`alookup` / `aupdate` / `aerase` mirror map read, `m[k] = v`, and
  `delete(m, k)`).
* A `*Client` pointer is modelled by the `Client.id` field: two Go
  pointers are equal iff the `id`s are equal, and one pointer always
  carries the same `UserID`/`TeamID`, so a `Client` record stands for a
  pointer.
* A client's buffered `Send` channel is a `ChanState` (capacity, queued
  payloads, closed flag), stored per client id in `Hub.chans`.  A
  non-blocking `select { case ch <- m: default: }` succeeds iff the
  channel is open and has room; theorems that exercise sends assume the
  targeted channels are open, because in Go a send on a closed channel
  panics rather than taking the `default` branch.
* Byte-slice payloads are modelled as `String`s.
-/

set_option maxRecDepth 8000

namespace Eaven

/-! ### Association lists modelling Go maps -/

def alookup {κ α : Type} [DecidableEq κ] : List (κ × α) → κ → Option α
  | [], _ => none
  | (k', v) :: rest, k => if k' = k then some v else alookup rest k

def aupdate {κ α : Type} [DecidableEq κ] : List (κ × α) → κ → α → List (κ × α)
  | [], k, v => [(k, v)]
  | (k', v') :: rest, k, v =>
      if k' = k then (k', v) :: rest else (k', v') :: aupdate rest k v

def aerase {κ α : Type} [DecidableEq κ] : List (κ × α) → κ → List (κ × α)
  | [], _ => []
  | (k', v) :: rest, k =>
      if k' = k then aerase rest k else (k', v) :: aerase rest k

theorem alookup_aupdate_self {κ α : Type} [DecidableEq κ]
    (m : List (κ × α)) (k : κ) (v : α) : alookup (aupdate m k v) k = some v := by
  induction m with
  | nil => simp [aupdate, alookup]
  | cons p rest ih =>
      obtain ⟨k', v'⟩ := p
      by_cases h : k' = k <;> simp [aupdate, alookup, h, ih]

theorem alookup_aupdate_ne {κ α : Type} [DecidableEq κ]
    (m : List (κ × α)) (k k' : κ) (v : α) (h : k' ≠ k) :
    alookup (aupdate m k v) k' = alookup m k' := by
  have hne : ∀ k₀ : κ, k₀ = k → ¬k₀ = k' := by
    rintro k₀ rfl hc
    exact h hc.symm
  induction m with
  | nil =>
      simp only [aupdate, alookup, if_neg (hne k rfl)]
  | cons p rest ih =>
      obtain ⟨k₀, v₀⟩ := p
      by_cases h0 : k₀ = k
      · simp only [aupdate, if_pos h0, alookup, if_neg (hne k₀ h0)]
      · simp only [aupdate, if_neg h0, alookup]
        by_cases h1 : k₀ = k' <;> simp [h1, ih]

theorem alookup_aerase {κ α : Type} [DecidableEq κ]
    (m : List (κ × α)) (k k' : κ) :
    alookup (aerase m k) k' = if k' = k then none else alookup m k' := by
  induction m with
  | nil => simp [aerase, alookup]
  | cons p rest ih =>
      obtain ⟨k₀, v₀⟩ := p
      by_cases h0 : k₀ = k
      · subst h0
        by_cases h1 : k₀ = k' <;> simp_all [aerase, alookup]
      · simp only [aerase, if_neg h0, alookup]
        by_cases h1 : k₀ = k'
        · subst h1; simp [fun hc : k₀ = k => h0 hc, ih]
        · simp [h1, ih]

theorem aupdate_of_alookup_eq {κ α : Type} [DecidableEq κ]
    (m : List (κ × α)) (k : κ) (v : α) (h : alookup m k = some v) :
    aupdate m k v = m := by
  induction m with
  | nil => cases h
  | cons p rest ih =>
      obtain ⟨k₀, v₀⟩ := p
      by_cases h0 : k₀ = k
      · rw [alookup, if_pos h0] at h
        rw [aupdate, if_pos h0, Option.some_inj.mp h]
      · rw [alookup, if_neg h0] at h
        rw [aupdate, if_neg h0, ih h]

theorem aupdate_ne_nil {κ α : Type} [DecidableEq κ]
    (m : List (κ × α)) (k : κ) (v : α) : aupdate m k v ≠ [] := by
  cases m with
  | nil => simp [aupdate]
  | cons p rest =>
      obtain ⟨k₀, v₀⟩ := p
      by_cases h0 : k₀ = k <;> simp [aupdate, h0]

theorem alookup_of_aerase_eq_nil {κ α : Type} [DecidableEq κ]
    (m : List (κ × α)) (k k' : κ) (h : aerase m k = []) (hne : k' ≠ k) :
    alookup m k' = none := by
  induction m with
  | nil => rfl
  | cons p rest ih =>
      obtain ⟨k₀, v₀⟩ := p
      by_cases h0 : k₀ = k
      · rw [aerase, if_pos h0] at h
        rw [alookup, if_neg (by rw [h0]; exact fun hc => hne hc.symm)]
        exact ih h
      · rw [aerase, if_neg h0] at h
        cases h

/-! ### Data model: clients, channels, hub state -/

/-- One `*models.Client`: `id` models pointer identity, `UserID`/`TeamID`
are the identity bound at upgrade time (`handlers.HandleWebSocket`). -/
structure Client where
  id : Nat
  UserID : String
  TeamID : String
deriving DecidableEq

/-- State of a client's buffered `Send chan []byte`: capacity fixed at
creation (`make(chan []byte, 256)`), FIFO contents, and whether `close`
has been called. -/
structure ChanState where
  cap : Nat
  buf : List String
  closed : Bool
deriving DecidableEq

/-- The channel capacity used by the repository when creating clients. -/
def clientSendCap : Nat := 256

instance : DecidableEq (List (String × List Client)) := inferInstance

instance : DecidableEq (List (String × List (String × List Client))) := inferInstance

instance : DecidableEq (List (String × List (String × List (String × List Client)))) :=
  inferInstance

/-- `models.Hub`: `clients` is the key set of `h.Clients`
(`map[*Client]bool`), `teamChannels` is
`TeamChannels map[string]map[string]map[string][]*Client`, and `chans`
holds each client's `Send` channel state, keyed by client id. -/
structure Hub where
  clients : List Client
  teamChannels : List (String × List (String × List (String × List Client)))
  chans : List (Nat × ChanState)
deriving DecidableEq

/-- `models.NewHub()`: empty registry. -/
def NewHub : Hub := { clients := [], teamChannels := [], chans := [] }

/-- Key-set membership test for `h.Clients` (Go compares pointers). -/
def hasClient (cs : List Client) (i : Nat) : Bool :=
  cs.any fun x => x.id == i

/-- `delete(h.Clients, client)`. -/
def removeClient (cs : List Client) (i : Nat) : List Client :=
  cs.filter fun x => x.id != i

/-- The Go loop in `Unregister` that removes the first slice element equal
to the client pointer and breaks. -/
def removeFirstById : List Client → Nat → List Client
  | [], _ => []
  | c :: rest, i => if c.id = i then rest else c :: removeFirstById rest i

/-- Number of occurrences of pointer `i` in a slice. -/
def countById : List Client → Nat → Nat
  | [], _ => 0
  | c :: rest, i => (if c.id = i then 1 else 0) + countById rest i

def Hub.getChan (h : Hub) (i : Nat) : ChanState :=
  (alookup h.chans i).getD { cap := 0, buf := [], closed := true }

def Hub.withChan (h : Hub) (i : Nat) (ch : ChanState) : Hub :=
  { h with chans := aupdate h.chans i ch }

/-- Non-blocking `select { case ch <- msg: ... default: ... }`: delivery
succeeds iff the channel is open and the buffer below capacity.  (A send
on a closed channel panics in Go; theorems exercising sends therefore
assume openness.) -/
def chanTrySend (ch : ChanState) (msg : String) : Option ChanState :=
  if ch.closed = false ∧ ch.buf.length < ch.cap then
    some { ch with buf := ch.buf ++ [msg] }
  else none

/-! ### Hub operations, translated from `websocket.go` -/

/-- The `case client := <-h.Register` branch of `Hub.Run`: put the client
in `h.Clients`, create the missing `TeamChannels` levels, and append the
client to `TeamChannels[TeamID]["userConnection"][UserID]`. -/
def Hub.register (h : Hub) (c : Client) : Hub :=
  let clients := if hasClient h.clients c.id then h.clients else h.clients ++ [c]
  let tm := (alookup h.teamChannels c.TeamID).getD []
  let uc := (alookup tm "userConnection").getD []
  let us := (alookup uc c.UserID).getD []
  let uc' := aupdate uc c.UserID (us ++ [c])
  let tm' := aupdate tm "userConnection" uc'
  { h with clients := clients, teamChannels := aupdate h.teamChannels c.TeamID tm' }

/-- Innermost part of the `Unregister` branch: remove the first slice
entry equal to the client pointer from `userConnections[client.UserID]`,
then delete the user entry if its slice became empty.  (`uc` is the
`userConnections` map, i.e. `TeamChannels[TeamID]["userConnection"]`.) -/
def unregUsers (uc : List (String × List Client)) (c : Client) :
    List (String × List Client) :=
  match alookup uc c.UserID with
  | none => uc
  | some cs =>
      let cs' := removeFirstById cs c.id
      let ucUpd := aupdate uc c.UserID cs'
      if cs'.length = 0 then aerase ucUpd c.UserID else ucUpd

/-- Middle part of the `Unregister` branch, acting on
`TeamChannels[client.TeamID]`: update through `unregUsers`, then delete
the `"userConnection"` entry if no users are left. -/
def unregTeamMap (tm : List (String × List (String × List Client))) (c : Client) :
    List (String × List (String × List Client)) :=
  match alookup tm "userConnection" with
  | none => tm
  | some uc =>
      let uc1 := unregUsers uc c
      let tmUpd := aupdate tm "userConnection" uc1
      if uc1.length = 0 then aerase tmUpd "userConnection" else tmUpd

/-- Outer part of the `Unregister` branch, acting on `h.TeamChannels`:
update the team of the client through `unregTeamMap`, then delete the team
entry if nothing is left in it. -/
def unregTeam (tcs : List (String × List (String × List (String × List Client))))
    (c : Client) :
    List (String × List (String × List (String × List Client))) :=
  match alookup tcs c.TeamID with
  | none => tcs
  | some tm =>
      let tm1 := unregTeamMap tm c
      let tcsUpd := aupdate tcs c.TeamID tm1
      if tm1.length = 0 then aerase tcsUpd c.TeamID else tcsUpd

/-- The `case client := <-h.Unregister` branch of `Hub.Run`: if the client
is present in `h.Clients`, delete it there, remove the first matching
slice entry, prune the user entry / the `"userConnection"` entry / the
team entry as each becomes empty, and `close(client.Send)`; otherwise do
nothing. -/
def Hub.unregister (h : Hub) (c : Client) : Hub :=
  if hasClient h.clients c.id then
    { clients := removeClient h.clients c.id,
      teamChannels := unregTeam h.teamChannels c,
      chans := aupdate h.chans c.id { h.getChan c.id with closed := true } }
  else h

/-- `close(client.Send); delete(h.Clients, client)` — the saturated-client
treatment of the broadcast paths. -/
def dropClient (h : Hub) (i : Nat) : Hub :=
  { h with chans := aupdate h.chans i { h.getChan i with closed := true },
           clients := removeClient h.clients i }

/-- Shared body of the two broadcast loops (`case message := <-h.Broadcast`
in `Run`, and the per-client attempt in `BroadcastToTeam`): try a
non-blocking send; on a full buffer, `close(client.Send)` and
`delete(h.Clients, client)` — the `TeamChannels` index is NOT touched. -/
def bcastLoop (msg : String) : List Client → Hub → Hub
  | [], h => h
  | c :: rest, h =>
      match chanTrySend (h.getChan c.id) msg with
      | some ch' => bcastLoop msg rest (h.withChan c.id ch')
      | none => bcastLoop msg rest (dropClient h c.id)

/-- The `case message := <-h.Broadcast` branch of `Hub.Run`: iterate over
the snapshot of `h.Clients`. -/
def Hub.broadcastAll (h : Hub) (msg : String) : Hub :=
  bcastLoop msg h.clients h

/-- Flatten `userConnections` (`map[string][]*Client`) into the list of
clients visited by the two nested `for` loops of `BroadcastToTeam`. -/
def flattenUsers (uc : List (String × List Client)) : List Client :=
  (uc.map Prod.snd).flatten

/-- `Hub.BroadcastToTeam`: if the team and its `"userConnection"` map
exist, run the broadcast loop over every indexed connection of the team;
otherwise do nothing. -/
def Hub.broadcastToTeam (h : Hub) (teamID msg : String) : Hub :=
  match alookup h.teamChannels teamID with
  | none => h
  | some tm =>
      match alookup tm "userConnection" with
      | none => h
      | some uc => bcastLoop msg (flattenUsers uc) h

/-- `Hub.GetUserConnections`: the slice indexed at
`TeamChannels[teamID]["userConnection"][userID]`, or `nil` (here `[]`). -/
def Hub.getUserConnections (h : Hub) (teamID userID : String) : List Client :=
  match alookup h.teamChannels teamID with
  | none => []
  | some tm =>
      match alookup tm "userConnection" with
      | none => []
      | some uc =>
          match alookup uc userID with
          | none => []
          | some cs => cs

/-- `Hub.IsUserConnected`: `len(GetUserConnections(teamID, userID)) > 0`. -/
def Hub.isUserConnected (h : Hub) (teamID userID : String) : Bool :=
  decide (0 < (h.getUserConnections teamID userID).length)

/-- The loop of `Hub.SendMessageToUser`: try a non-blocking send to each
connection, set `success` on each delivery, and do nothing on a full
buffer. -/
def sendLoop (msg : String) : List Client → Bool × Hub → Bool × Hub
  | [], acc => acc
  | c :: rest, acc =>
      match chanTrySend (acc.2.getChan c.id) msg with
      | some ch' => sendLoop msg rest (true, acc.2.withChan c.id ch')
      | none => sendLoop msg rest acc

/-- `Hub.SendMessageToUser`: returns `false` immediately when the user has
no indexed connections, otherwise runs the send loop and returns whether
any delivery succeeded (with the updated channel states). -/
def Hub.sendMessageToUser (h : Hub) (teamID userID msg : String) : Bool × Hub :=
  if (h.getUserConnections teamID userID).length = 0 then (false, h)
  else sendLoop msg (h.getUserConnections teamID userID) (false, h)

/-! ### Envelope codec and the read-pump relay step -/

/-- `models.Message`: the JSON envelope.  `ty` is the Go field `Type`
(JSON key `"type"`); the other fields keep their Go names (JSON keys
`"content"`, `"team_id"`, `"user_id"`). -/
structure Message where
  ty : String
  content : String
  TeamID : String
  UserID : String
deriving DecidableEq

/-- One hexadecimal digit, lowercase, as written by Go's JSON encoder. -/
def hexDigit (n : Nat) : String :=
  if n = 0 then "0" else if n = 1 then "1" else if n = 2 then "2"
  else if n = 3 then "3" else if n = 4 then "4" else if n = 5 then "5"
  else if n = 6 then "6" else if n = 7 then "7" else if n = 8 then "8"
  else if n = 9 then "9" else if n = 10 then "a" else if n = 11 then "b"
  else if n = 12 then "c" else if n = 13 then "d" else if n = 14 then "e"
  else "f"

/-- Go `encoding/json` string escaping (with the default HTML escaping of
`<`, `>`, `&`, and of U+2028/U+2029). -/
def escChar (ch : Char) : String :=
  if ch = '"' then "\\\""
  else if ch = '\\' then "\\\\"
  else if ch = '\n' then "\\n"
  else if ch = '\r' then "\\r"
  else if ch = '\t' then "\\t"
  else if ch.toNat < 32 then "\\u00" ++ hexDigit (ch.toNat / 16) ++ hexDigit (ch.toNat % 16)
  else if ch = '<' then "\\u003c"
  else if ch = '>' then "\\u003e"
  else if ch = '&' then "\\u0026"
  else if ch.toNat = 0x2028 then "\\u2028"
  else if ch.toNat = 0x2029 then "\\u2029"
  else String.singleton ch

def jsonQuote (s : String) : String :=
  "\"" ++ String.join (s.toList.map escChar) ++ "\""

/-- `json.Marshal` of a `Message` value: fields in struct order with their
JSON tags.  (Marshalling a struct of four strings never fails in Go.) -/
def Message.encode (m : Message) : String :=
  "\x7b\"type\":" ++ jsonQuote m.ty ++ ",\"content\":" ++ jsonQuote m.content ++
    ",\"team_id\":" ++ jsonQuote m.TeamID ++ ",\"user_id\":" ++ jsonQuote m.UserID ++ "\x7d"

/-- One iteration of the body of `Client.ReadPump` after a successful
socket read, taking the result of `json.Unmarshal` on the frame as a
parameter: a frame that fails to decode is discarded (`continue`, hub
untouched); a decoded frame has its `UserID`/`TeamID` overwritten with the
connection's bound identity, is re-marshalled, and is broadcast to the
connection's team. -/
def readPumpStep (c : Client) (decoded : Option Message) (h : Hub) : Hub :=
  match decoded with
  | none => h
  | some msg =>
      let stamped := { msg with UserID := c.UserID, TeamID := c.TeamID }
      h.broadcastToTeam c.TeamID stamped.encode

/-! ### Static lock model -/

/-- Modes in which `h.mu : sync.RWMutex` can be held. -/
inductive LockMode where
  | free
  | readLock
  | writeLock
deriving DecidableEq

/-- A call into the hub, with its arguments. -/
inductive HubCall where
  | callRegister (c : Client)
  | callUnregister (c : Client)
  | callBroadcastAll (msg : String)
  | callBroadcastToTeam (teamID msg : String)
  | callGetUserConnections (teamID userID : String)
  | callIsUserConnected (teamID userID : String)
  | callSendMessageToUser (teamID userID msg : String)

/-- The lock mode each operation acquires around its access to the
indexes, as written in the source: the `Register` and `Unregister`
branches of `Run` take `h.mu.Lock()`; the `Broadcast` branch of `Run`,
`BroadcastToTeam`, and `GetUserConnections` (hence `IsUserConnected` and
`SendMessageToUser`, which delegate to it) take `h.mu.RLock()`. -/
def HubCall.lockMode : HubCall → LockMode
  | .callRegister _ => .writeLock
  | .callUnregister _ => .writeLock
  | .callBroadcastAll _ => .readLock
  | .callBroadcastToTeam _ _ => .readLock
  | .callGetUserConnections _ _ => .readLock
  | .callIsUserConnected _ _ => .readLock
  | .callSendMessageToUser _ _ _ => .readLock

/-- The state transformation each call performs (queries leave the hub
unchanged; `SendMessageToUser` only mutates channel contents). -/
def HubCall.apply : HubCall → Hub → Hub
  | .callRegister c, h => h.register c
  | .callUnregister c, h => h.unregister c
  | .callBroadcastAll msg, h => h.broadcastAll msg
  | .callBroadcastToTeam teamID msg, h => h.broadcastToTeam teamID msg
  | .callGetUserConnections _ _, h => h
  | .callIsUserConnected _ _, h => h
  | .callSendMessageToUser teamID userID msg, h => (h.sendMessageToUser teamID userID msg).2

/-- A call mutates the registry's indexes at state `h` when it changes
`h.Clients` or `h.TeamChannels`. -/
def HubCall.mutatesIndexes (k : HubCall) (h : Hub) : Prop :=
  (k.apply h).clients ≠ h.clients ∨ (k.apply h).teamChannels ≠ h.teamChannels

instance (k : HubCall) (h : Hub) : Decidable (k.mutatesIndexes h) := by
  unfold HubCall.mutatesIndexes
  infer_instance

/-! ### Basic lemmas about the list helpers -/

/-- Pairwise-distinct pointer identities (always true of a set of live Go
pointers). -/
def NodupIds (l : List Client) : Prop :=
  l.Pairwise fun a b => a.id ≠ b.id

theorem hasClient_iff (cs : List Client) (i : Nat) :
    hasClient cs i = true ↔ ∃ c ∈ cs, c.id = i := by
  simp [hasClient, List.any_eq_true, beq_iff_eq]

theorem hasClient_eq_false_iff (cs : List Client) (i : Nat) :
    hasClient cs i = false ↔ ∀ c ∈ cs, c.id ≠ i := by
  rw [← Bool.not_eq_true, hasClient_iff]
  simp

theorem mem_removeClient (cs : List Client) (i : Nat) (x : Client) :
    x ∈ removeClient cs i ↔ x ∈ cs ∧ x.id ≠ i := by
  simp [removeClient, List.mem_filter, bne_iff_ne]

theorem hasClient_removeClient_self (cs : List Client) (i : Nat) :
    hasClient (removeClient cs i) i = false := by
  rw [hasClient_eq_false_iff]
  intro c hc
  exact ((mem_removeClient cs i c).mp hc).2

theorem mem_removeFirstById (l : List Client) (i : Nat) (x : Client) (hx : x ∈ l)
    (hne : x.id ≠ i) : x ∈ removeFirstById l i := by
  induction l with
  | nil => cases hx
  | cons c rest ih =>
      by_cases hc : c.id = i
      · simp only [removeFirstById, if_pos hc]
        rcases List.mem_cons.mp hx with rfl | hx'
        · exact absurd hc hne
        · exact hx'
      · simp only [removeFirstById, if_neg hc]
        rcases List.mem_cons.mp hx with rfl | hx'
        · exact List.mem_cons_self _ _
        · exact List.mem_cons_of_mem _ (ih hx')

theorem removeFirstById_subset (l : List Client) (i : Nat) (x : Client)
    (hx : x ∈ removeFirstById l i) : x ∈ l := by
  induction l with
  | nil => cases hx
  | cons c rest ih =>
      by_cases hc : c.id = i
      · simp only [removeFirstById, if_pos hc] at hx
        exact List.mem_cons_of_mem _ hx
      · simp only [removeFirstById, if_neg hc] at hx
        rcases List.mem_cons.mp hx with rfl | hx'
        · exact List.mem_cons_self _ _
        · exact List.mem_cons_of_mem _ (ih hx')

theorem countById_eq_zero (l : List Client) (i : Nat) :
    countById l i = 0 ↔ ∀ c ∈ l, c.id ≠ i := by
  induction l with
  | nil => simp [countById]
  | cons c rest ih =>
      by_cases hc : c.id = i <;> simp [countById, hc, ih]

theorem countById_pos_of_mem {l : List Client} {c : Client} (hc : c ∈ l) :
    0 < countById l c.id := by
  induction l with
  | nil => cases hc
  | cons b rest ih =>
      rcases List.mem_cons.mp hc with rfl | hc'
      · simp [countById]
      · have := ih hc'
        simp only [countById]
        omega

theorem countById_removeFirstById (l : List Client) (i : Nat) :
    countById (removeFirstById l i) i = countById l i - 1 := by
  induction l with
  | nil => simp [removeFirstById, countById]
  | cons c rest ih =>
      by_cases hc : c.id = i
      · simp [removeFirstById, countById, hc]
      · simp [removeFirstById, countById, hc, ih]

theorem countById_removeFirstById_ne (l : List Client) (i j : Nat) (h : j ≠ i) :
    countById (removeFirstById l i) j = countById l j := by
  induction l with
  | nil => simp [removeFirstById]
  | cons c rest ih =>
      by_cases hc : c.id = i
      · have hcj : ¬c.id = j := by rw [hc]; exact fun hh => h hh.symm
        rw [removeFirstById, if_pos hc]
        simp [countById, hcj]
      · simp [removeFirstById, countById, hc, ih]

theorem mem_unique_of_nodupIds {l : List Client} (hnd : NodupIds l) {a b : Client}
    (ha : a ∈ l) (hb : b ∈ l) (hid : a.id = b.id) : a = b := by
  induction l with
  | nil => cases ha
  | cons c rest ih =>
      rw [NodupIds, List.pairwise_cons] at hnd
      rcases List.mem_cons.mp ha with rfl | ha' <;>
        rcases List.mem_cons.mp hb with rfl | hb'
      · rfl
      · exact absurd hid (hnd.1 b hb')
      · exact absurd hid.symm (hnd.1 a ha')
      · exact ih hnd.2 ha' hb'

/-! ### Channel-state access lemmas -/

theorem getChan_withChan_self (h : Hub) (i : Nat) (ch : ChanState) :
    (h.withChan i ch).getChan i = ch := by
  simp [Hub.withChan, Hub.getChan, alookup_aupdate_self]

theorem getChan_withChan_ne (h : Hub) (i j : Nat) (ch : ChanState) (hne : j ≠ i) :
    (h.withChan i ch).getChan j = h.getChan j := by
  simp [Hub.withChan, Hub.getChan, alookup_aupdate_ne _ _ _ _ hne]

theorem chanTrySend_eq_some {ch ch' : ChanState} {msg : String}
    (h : chanTrySend ch msg = some ch') :
    ch.closed = false ∧ ch.buf.length < ch.cap ∧ ch' = { ch with buf := ch.buf ++ [msg] } := by
  by_cases hc : ch.closed = false ∧ ch.buf.length < ch.cap
  · refine ⟨hc.1, hc.2, ?_⟩
    rw [chanTrySend, if_pos hc] at h
    exact (Option.some_injective _ h).symm
  · rw [chanTrySend, if_neg hc] at h
    cases h

theorem chanTrySend_eq_none {ch : ChanState} {msg : String}
    (h : chanTrySend ch msg = none) :
    ¬(ch.closed = false ∧ ch.buf.length < ch.cap) := by
  intro hc
  rw [chanTrySend, if_pos hc] at h
  cases h

theorem chanTrySend_some_of (ch : ChanState) (msg : String)
    (hopen : ch.closed = false) (hroom : ch.buf.length < ch.cap) :
    chanTrySend ch msg = some { ch with buf := ch.buf ++ [msg] } := by
  rw [chanTrySend, if_pos ⟨hopen, hroom⟩]

theorem chanTrySend_none_of_full (ch : ChanState) (msg : String)
    (hfull : ¬ch.buf.length < ch.cap) :
    chanTrySend ch msg = none := by
  rw [chanTrySend, if_neg]
  intro hc
  exact hfull hc.2

theorem getChan_dropClient_self (h : Hub) (i : Nat) :
    (dropClient h i).getChan i = { h.getChan i with closed := true } := by
  simp [dropClient, Hub.getChan, alookup_aupdate_self]

theorem getChan_dropClient_ne (h : Hub) (i j : Nat) (hne : j ≠ i) :
    (dropClient h i).getChan j = h.getChan j := by
  simp [dropClient, Hub.getChan, alookup_aupdate_ne _ _ _ _ hne]

/-! ### Broadcast-loop lemmas -/

theorem bcastLoop_teamChannels (msg : String) (l : List Client) (h : Hub) :
    (bcastLoop msg l h).teamChannels = h.teamChannels := by
  induction l generalizing h with
  | nil => rfl
  | cons c rest ih =>
      cases hcase : chanTrySend (h.getChan c.id) msg with
      | some ch' =>
          simp only [bcastLoop, hcase]
          rw [ih]
          rfl
      | none =>
          simp only [bcastLoop, hcase]
          rw [ih]
          rfl

theorem bcastLoop_getChan_of_ne (msg : String) (l : List Client) (h : Hub) (i : Nat)
    (hni : ∀ c ∈ l, c.id ≠ i) :
    (bcastLoop msg l h).getChan i = h.getChan i := by
  induction l generalizing h with
  | nil => rfl
  | cons c rest ih =>
      have hci : c.id ≠ i := hni c (List.mem_cons_self _ _)
      have hrest : ∀ x ∈ rest, x.id ≠ i := fun x hx => hni x (List.mem_cons_of_mem _ hx)
      have hine : i ≠ c.id := fun hh => hci hh.symm
      cases hcase : chanTrySend (h.getChan c.id) msg with
      | some ch' =>
          simp only [bcastLoop, hcase]
          rw [ih _ hrest, getChan_withChan_ne _ _ _ _ hine]
      | none =>
          simp only [bcastLoop, hcase]
          rw [ih _ hrest, getChan_dropClient_ne _ _ _ hine]

theorem bcastLoop_clients_subset (msg : String) (l : List Client) (h : Hub) (x : Client)
    (hx : x ∈ (bcastLoop msg l h).clients) : x ∈ h.clients := by
  induction l generalizing h with
  | nil => exact hx
  | cons c rest ih =>
      cases hcase : chanTrySend (h.getChan c.id) msg with
      | some ch' =>
          simp only [bcastLoop, hcase] at hx
          exact ih (h.withChan c.id ch') hx
      | none =>
          simp only [bcastLoop, hcase] at hx
          have := ih (dropClient h c.id) hx
          simp only [dropClient] at this
          exact ((mem_removeClient _ _ _).mp this).1

theorem bcastLoop_clients_mem (msg : String) (l : List Client) (h : Hub) (x : Client)
    (hx : x ∈ h.clients) (hni : ∀ c ∈ l, c.id ≠ x.id) :
    x ∈ (bcastLoop msg l h).clients := by
  induction l generalizing h with
  | nil => exact hx
  | cons c rest ih =>
      have hrest : ∀ b ∈ rest, b.id ≠ x.id := fun b hb => hni b (List.mem_cons_of_mem _ hb)
      cases hcase : chanTrySend (h.getChan c.id) msg with
      | some ch' =>
          simp only [bcastLoop, hcase]
          exact ih _ hx hrest
      | none =>
          simp only [bcastLoop, hcase]
          refine ih _ ?_ hrest
          simp only [dropClient]
          exact (mem_removeClient _ _ _).mpr
            ⟨hx, fun hh => hni c (List.mem_cons_self _ _) hh.symm⟩

theorem bcastLoop_hasClient_false (msg : String) (l : List Client) (h : Hub) (i : Nat)
    (h0 : hasClient h.clients i = false) :
    hasClient (bcastLoop msg l h).clients i = false := by
  rw [hasClient_eq_false_iff] at h0 ⊢
  intro c hc
  exact h0 c (bcastLoop_clients_subset msg l h c hc)

theorem bcastLoop_drop (msg : String) (l : List Client) (h : Hub) (c : Client)
    (hnd : NodupIds l) (hc : c ∈ l)
    (hfail : chanTrySend (h.getChan c.id) msg = none) :
    (bcastLoop msg l h).getChan c.id = { h.getChan c.id with closed := true } ∧
      hasClient (bcastLoop msg l h).clients c.id = false := by
  induction l generalizing h with
  | nil => cases hc
  | cons b rest ih =>
      rw [NodupIds, List.pairwise_cons] at hnd
      rcases List.mem_cons.mp hc with rfl | hc'
      · simp only [bcastLoop, hfail]
        constructor
        · rw [bcastLoop_getChan_of_ne _ _ _ _ fun x hx => (hnd.1 x hx).symm,
            getChan_dropClient_self]
        · refine bcastLoop_hasClient_false _ _ _ _ ?_
          simp only [dropClient]
          exact hasClient_removeClient_self _ _
      · have hbc : c.id ≠ b.id := fun hh => hnd.1 c hc' hh.symm
        cases hcase : chanTrySend (h.getChan b.id) msg with
        | some ch' =>
            simp only [bcastLoop, hcase]
            have hgc : (h.withChan b.id ch').getChan c.id = h.getChan c.id :=
              getChan_withChan_ne _ _ _ _ hbc
            have := ih (h.withChan b.id ch') hnd.2 hc' (by rw [hgc]; exact hfail)
            rw [hgc] at this
            exact this
        | none =>
            simp only [bcastLoop, hcase]
            have hgc : (dropClient h b.id).getChan c.id = h.getChan c.id :=
              getChan_dropClient_ne _ _ _ hbc
            have := ih (dropClient h b.id) hnd.2 hc' (by rw [hgc]; exact hfail)
            rw [hgc] at this
            exact this

theorem bcastLoop_deliver (msg : String) (l : List Client) (h : Hub) (c : Client)
    (ch' : ChanState) (hnd : NodupIds l) (hc : c ∈ l)
    (hok : chanTrySend (h.getChan c.id) msg = some ch') :
    (bcastLoop msg l h).getChan c.id = ch' ∧
      (c ∈ h.clients → c ∈ (bcastLoop msg l h).clients) := by
  induction l generalizing h with
  | nil => cases hc
  | cons b rest ih =>
      rw [NodupIds, List.pairwise_cons] at hnd
      rcases List.mem_cons.mp hc with rfl | hc'
      · simp only [bcastLoop, hok]
        constructor
        · rw [bcastLoop_getChan_of_ne _ _ _ _ fun x hx => (hnd.1 x hx).symm,
            getChan_withChan_self]
        · intro hmem
          exact bcastLoop_clients_mem _ _ _ _ hmem fun x hx => (hnd.1 x hx).symm
      · have hbc : c.id ≠ b.id := fun hh => hnd.1 c hc' hh.symm
        cases hcase : chanTrySend (h.getChan b.id) msg with
        | some chb =>
            simp only [bcastLoop, hcase]
            have hgc : (h.withChan b.id chb).getChan c.id = h.getChan c.id :=
              getChan_withChan_ne _ _ _ _ hbc
            have := ih (h.withChan b.id chb) hnd.2 hc' (by rw [hgc]; exact hok)
            exact ⟨this.1, fun hmem => this.2 hmem⟩
        | none =>
            simp only [bcastLoop, hcase]
            have hgc : (dropClient h b.id).getChan c.id = h.getChan c.id :=
              getChan_dropClient_ne _ _ _ hbc
            have := ih (dropClient h b.id) hnd.2 hc' (by rw [hgc]; exact hok)
            refine ⟨this.1, fun hmem => this.2 ?_⟩
            simp only [dropClient]
            exact (mem_removeClient _ _ _).mpr ⟨hmem, hbc⟩

/-! ### Send-loop lemmas -/

theorem sendLoop_clients (msg : String) (l : List Client) (acc : Bool × Hub) :
    (sendLoop msg l acc).2.clients = acc.2.clients := by
  induction l generalizing acc with
  | nil => rfl
  | cons c rest ih =>
      cases hcase : chanTrySend (acc.2.getChan c.id) msg with
      | some ch' =>
          simp only [sendLoop, hcase]
          rw [ih]
          rfl
      | none =>
          simp only [sendLoop, hcase]
          rw [ih]

theorem sendLoop_teamChannels (msg : String) (l : List Client) (acc : Bool × Hub) :
    (sendLoop msg l acc).2.teamChannels = acc.2.teamChannels := by
  induction l generalizing acc with
  | nil => rfl
  | cons c rest ih =>
      cases hcase : chanTrySend (acc.2.getChan c.id) msg with
      | some ch' =>
          simp only [sendLoop, hcase]
          rw [ih]
          rfl
      | none =>
          simp only [sendLoop, hcase]
          rw [ih]

theorem sendLoop_getChan_of_ne (msg : String) (l : List Client) (acc : Bool × Hub) (i : Nat)
    (hni : ∀ c ∈ l, c.id ≠ i) :
    (sendLoop msg l acc).2.getChan i = acc.2.getChan i := by
  induction l generalizing acc with
  | nil => rfl
  | cons c rest ih =>
      have hci : i ≠ c.id := fun hh => hni c (List.mem_cons_self _ _) hh.symm
      have hrest : ∀ x ∈ rest, x.id ≠ i := fun x hx => hni x (List.mem_cons_of_mem _ hx)
      cases hcase : chanTrySend (acc.2.getChan c.id) msg with
      | some ch' =>
          simp only [sendLoop, hcase]
          rw [ih _ hrest]
          exact getChan_withChan_ne _ _ _ _ hci
      | none =>
          simp only [sendLoop, hcase]
          exact ih _ hrest

theorem sendLoop_fst_mono (msg : String) (l : List Client) (acc : Bool × Hub)
    (hacc : acc.1 = true) : (sendLoop msg l acc).1 = true := by
  induction l generalizing acc with
  | nil => exact hacc
  | cons c rest ih =>
      cases hcase : chanTrySend (acc.2.getChan c.id) msg with
      | some ch' =>
          simp only [sendLoop, hcase]
          exact ih _ rfl
      | none =>
          simp only [sendLoop, hcase]
          exact ih _ hacc

theorem sendLoop_deliver (msg : String) (l : List Client) (acc : Bool × Hub) (c : Client)
    (ch' : ChanState) (hnd : NodupIds l) (hc : c ∈ l)
    (hok : chanTrySend (acc.2.getChan c.id) msg = some ch') :
    (sendLoop msg l acc).2.getChan c.id = ch' ∧ (sendLoop msg l acc).1 = true := by
  induction l generalizing acc with
  | nil => cases hc
  | cons b rest ih =>
      rw [NodupIds, List.pairwise_cons] at hnd
      rcases List.mem_cons.mp hc with rfl | hc'
      · simp only [sendLoop, hok]
        constructor
        · rw [sendLoop_getChan_of_ne _ _ _ _ fun x hx => (hnd.1 x hx).symm,
            getChan_withChan_self]
        · exact sendLoop_fst_mono _ _ _ rfl
      · have hbc : c.id ≠ b.id := fun hh => hnd.1 c hc' hh.symm
        cases hcase : chanTrySend (acc.2.getChan b.id) msg with
        | some chb =>
            simp only [sendLoop, hcase]
            have hgc : ((acc.2.withChan b.id chb)).getChan c.id = acc.2.getChan c.id :=
              getChan_withChan_ne _ _ _ _ hbc
            exact ih (true, acc.2.withChan b.id chb) hnd.2 hc' (by rw [hgc]; exact hok)
        | none =>
            simp only [sendLoop, hcase]
            exact ih acc hnd.2 hc' hok

theorem sendLoop_skip (msg : String) (l : List Client) (acc : Bool × Hub) (c : Client)
    (hnd : NodupIds l) (hc : c ∈ l)
    (hfail : chanTrySend (acc.2.getChan c.id) msg = none) :
    (sendLoop msg l acc).2.getChan c.id = acc.2.getChan c.id := by
  induction l generalizing acc with
  | nil => cases hc
  | cons b rest ih =>
      rw [NodupIds, List.pairwise_cons] at hnd
      rcases List.mem_cons.mp hc with rfl | hc'
      · simp only [sendLoop, hfail]
        exact sendLoop_getChan_of_ne _ _ _ _ fun x hx => (hnd.1 x hx).symm
      · have hbc : c.id ≠ b.id := fun hh => hnd.1 c hc' hh.symm
        cases hcase : chanTrySend (acc.2.getChan b.id) msg with
        | some chb =>
            simp only [sendLoop, hcase]
            have hgc : ((acc.2.withChan b.id chb)).getChan c.id = acc.2.getChan c.id :=
              getChan_withChan_ne _ _ _ _ hbc
            rw [ih (true, acc.2.withChan b.id chb) hnd.2 hc' (by rw [hgc]; exact hfail)]
            exact hgc
        | none =>
            simp only [sendLoop, hcase]
            exact ih acc hnd.2 hc' hfail

theorem sendLoop_fst_iff (msg : String) (l : List Client) (acc : Bool × Hub)
    (hnd : NodupIds l)
    (hopen : ∀ c ∈ l, (acc.2.getChan c.id).closed = false) :
    (sendLoop msg l acc).1 = true ↔
      acc.1 = true ∨
        ∃ c ∈ l, (acc.2.getChan c.id).buf.length < (acc.2.getChan c.id).cap := by
  induction l generalizing acc with
  | nil => simp [sendLoop]
  | cons b rest ih =>
      rw [NodupIds, List.pairwise_cons] at hnd
      have hopenb := hopen b (List.mem_cons_self _ _)
      have hopenr : ∀ c ∈ rest, (acc.2.getChan c.id).closed = false :=
        fun c hc => hopen c (List.mem_cons_of_mem _ hc)
      cases hcase : chanTrySend (acc.2.getChan b.id) msg with
      | some chb =>
          simp only [sendLoop, hcase]
          have hroom := (chanTrySend_eq_some hcase).2.1
          constructor
          · intro _
            exact Or.inr ⟨b, List.mem_cons_self _ _, hroom⟩
          · intro _
            exact sendLoop_fst_mono _ _ _ rfl
      | none =>
          simp only [sendLoop, hcase]
          have hnoroom : ¬(acc.2.getChan b.id).buf.length < (acc.2.getChan b.id).cap :=
            fun hr => chanTrySend_eq_none hcase ⟨hopenb, hr⟩
          rw [ih acc hnd.2 hopenr]
          constructor
          · rintro (hacc | ⟨c, hc, hroom⟩)
            · exact Or.inl hacc
            · exact Or.inr ⟨c, List.mem_cons_of_mem _ hc, hroom⟩
          · rintro (hacc | ⟨c, hc, hroom⟩)
            · exact Or.inl hacc
            · rcases List.mem_cons.mp hc with rfl | hc'
              · exact absurd hroom hnoroom
              · exact Or.inr ⟨c, hc', hroom⟩

/-! ### Register / Unregister index characterizations -/

theorem getUserConnections_eq_chain (h : Hub) (T U : String) :
    h.getUserConnections T U =
      ((alookup ((alookup ((alookup h.teamChannels T).getD [])
        "userConnection").getD []) U).getD []) := by
  rw [Hub.getUserConnections]
  cases htm : alookup h.teamChannels T with
  | none => simp [alookup]
  | some tm =>
      cases huc : alookup tm "userConnection" with
      | none => simp [huc, alookup]
      | some uc =>
          cases hus : alookup uc U with
          | none => simp [huc, hus]
          | some cs => simp [huc, hus]

theorem register_clients_not_present (h : Hub) (c : Client)
    (hp : hasClient h.clients c.id = false) :
    (h.register c).clients = h.clients ++ [c] := by
  rw [Hub.register]
  simp only [hp]
  rfl

theorem register_clients_present (h : Hub) (c : Client)
    (hp : hasClient h.clients c.id = true) :
    (h.register c).clients = h.clients := by
  rw [Hub.register]
  simp only [hp]
  rfl

theorem register_chans (h : Hub) (c : Client) : (h.register c).chans = h.chans := rfl

theorem register_getChan (h : Hub) (c : Client) (i : Nat) :
    (h.register c).getChan i = h.getChan i := rfl

theorem register_getUserConnections (h : Hub) (c : Client) (T U : String) :
    (h.register c).getUserConnections T U =
      if T = c.TeamID ∧ U = c.UserID
      then h.getUserConnections T U ++ [c]
      else h.getUserConnections T U := by
  by_cases hT : T = c.TeamID
  · by_cases hU : U = c.UserID
    · subst hT
      subst hU
      rw [if_pos ⟨rfl, rfl⟩, getUserConnections_eq_chain, getUserConnections_eq_chain]
      rw [Hub.register]
      simp only [alookup_aupdate_self, Option.getD_some]
    · rw [if_neg fun hc => hU hc.2]
      subst hT
      rw [getUserConnections_eq_chain, getUserConnections_eq_chain]
      rw [Hub.register]
      simp only [alookup_aupdate_self, Option.getD_some, alookup_aupdate_ne _ _ _ _ hU]
  · rw [if_neg fun hc => hT hc.1]
    rw [getUserConnections_eq_chain, getUserConnections_eq_chain]
    rw [Hub.register]
    simp only [alookup_aupdate_ne _ _ _ _ hT]

theorem unregister_not_present (h : Hub) (c : Client)
    (hp : hasClient h.clients c.id = false) : h.unregister c = h := by
  rw [Hub.unregister, if_neg]
  simp [hp]

theorem unregister_clients (h : Hub) (c : Client)
    (hp : hasClient h.clients c.id = true) :
    (h.unregister c).clients = removeClient h.clients c.id := by
  rw [Hub.unregister, if_pos hp]

theorem unregister_teamChannels (h : Hub) (c : Client)
    (hp : hasClient h.clients c.id = true) :
    (h.unregister c).teamChannels = unregTeam h.teamChannels c := by
  rw [Hub.unregister, if_pos hp]

theorem unregister_chans (h : Hub) (c : Client)
    (hp : hasClient h.clients c.id = true) :
    (h.unregister c).chans = aupdate h.chans c.id { h.getChan c.id with closed := true } := by
  rw [Hub.unregister, if_pos hp]

theorem unregister_getChan_self (h : Hub) (c : Client)
    (hp : hasClient h.clients c.id = true) :
    (h.unregister c).getChan c.id = { h.getChan c.id with closed := true } := by
  rw [Hub.getChan, unregister_chans h c hp, alookup_aupdate_self]
  rfl

theorem unregister_getChan_ne (h : Hub) (c : Client) (i : Nat) (hne : i ≠ c.id) :
    (h.unregister c).getChan i = h.getChan i := by
  cases hp : hasClient h.clients c.id with
  | true =>
      rw [Hub.getChan, unregister_chans h c hp, alookup_aupdate_ne _ _ _ _ hne]
      rfl
  | false => rw [unregister_not_present h c hp]

theorem unregUsers_chain (uc : List (String × List Client)) (c : Client) (U : String) :
    (alookup (unregUsers uc c) U).getD [] =
      if U = c.UserID
      then removeFirstById ((alookup uc c.UserID).getD []) c.id
      else (alookup uc U).getD [] := by
  cases hus : alookup uc c.UserID with
  | none =>
      simp only [unregUsers, hus]
      by_cases hU : U = c.UserID
      · subst hU
        rw [if_pos rfl, hus]
        simp [removeFirstById]
      · rw [if_neg hU]
  | some cs =>
      simp only [unregUsers, hus]
      by_cases hcs : (removeFirstById cs c.id).length = 0
      · rw [if_pos hcs]
        by_cases hU : U = c.UserID
        · subst hU
          rw [if_pos rfl, alookup_aerase, if_pos rfl]
          simp [List.length_eq_zero.mp hcs]
        · rw [if_neg hU, alookup_aerase, if_neg hU, alookup_aupdate_ne _ _ _ _ hU]
      · rw [if_neg hcs]
        by_cases hU : U = c.UserID
        · subst hU
          rw [if_pos rfl, alookup_aupdate_self]
          rfl
        · rw [if_neg hU, alookup_aupdate_ne _ _ _ _ hU]

theorem unregTeamMap_chain (tm : List (String × List (String × List Client)))
    (c : Client) :
    (alookup (unregTeamMap tm c) "userConnection").getD [] =
      unregUsers ((alookup tm "userConnection").getD []) c := by
  cases huc : alookup tm "userConnection" with
  | none =>
      simp only [unregTeamMap, huc, Option.getD_none]
      simp [unregUsers, alookup]
  | some uc =>
      simp only [unregTeamMap, huc, Option.getD_some]
      by_cases h1 : (unregUsers uc c).length = 0
      · rw [if_pos h1, alookup_aerase, if_pos rfl]
        simp [List.length_eq_zero.mp h1]
      · rw [if_neg h1, alookup_aupdate_self]
        rfl

theorem unregTeam_chain
    (tcs : List (String × List (String × List (String × List Client)))) (c : Client) :
    (alookup (unregTeam tcs c) c.TeamID).getD [] =
      unregTeamMap ((alookup tcs c.TeamID).getD []) c := by
  cases htm : alookup tcs c.TeamID with
  | none =>
      simp only [unregTeam, htm, Option.getD_none]
      simp [unregTeamMap, alookup]
  | some tm =>
      simp only [unregTeam, htm, Option.getD_some]
      by_cases h1 : (unregTeamMap tm c).length = 0
      · rw [if_pos h1, alookup_aerase, if_pos rfl]
        simp [List.length_eq_zero.mp h1]
      · rw [if_neg h1, alookup_aupdate_self]
        rfl

theorem unregTeam_lookup_ne
    (tcs : List (String × List (String × List (String × List Client)))) (c : Client)
    (T : String) (hT : T ≠ c.TeamID) :
    alookup (unregTeam tcs c) T = alookup tcs T := by
  cases htm : alookup tcs c.TeamID with
  | none => simp only [unregTeam, htm]
  | some tm =>
      simp only [unregTeam, htm]
      by_cases h1 : (unregTeamMap tm c).length = 0
      · rw [if_pos h1, alookup_aerase, if_neg hT, alookup_aupdate_ne _ _ _ _ hT]
      · rw [if_neg h1, alookup_aupdate_ne _ _ _ _ hT]

/-- Master characterization of `Unregister` on the presence index: the
slice of the unregistered identity loses its first occurrence of the
pointer; every other slice is untouched (pruning only removes levels that
are empty, which read back as the empty slice either way). -/
theorem unregister_getUserConnections (h : Hub) (c : Client)
    (hp : hasClient h.clients c.id = true) (T U : String) :
    (h.unregister c).getUserConnections T U =
      if T = c.TeamID ∧ U = c.UserID
      then removeFirstById (h.getUserConnections T U) c.id
      else h.getUserConnections T U := by
  have htc : (h.unregister c).teamChannels = unregTeam h.teamChannels c :=
    unregister_teamChannels h c hp
  by_cases hT : T = c.TeamID
  · subst hT
    rw [getUserConnections_eq_chain, htc, unregTeam_chain, unregTeamMap_chain,
      unregUsers_chain]
    by_cases hU : U = c.UserID
    · subst hU
      rw [if_pos rfl, if_pos ⟨rfl, rfl⟩, getUserConnections_eq_chain]
    · rw [if_neg hU, if_neg fun hc => hU hc.2, getUserConnections_eq_chain]
  · rw [if_neg fun hc => hT hc.1, getUserConnections_eq_chain,
      getUserConnections_eq_chain, htc, unregTeam_lookup_ne _ _ _ hT]

/-! ### Sequences of register and unregister operations -/

theorem countById_append (l₁ l₂ : List Client) (i : Nat) :
    countById (l₁ ++ l₂) i = countById l₁ i + countById l₂ i := by
  induction l₁ with
  | nil => simp [countById]
  | cons c rest ih =>
      show (if c.id = i then 1 else 0) + countById (rest ++ l₂) i =
        ((if c.id = i then 1 else 0) + countById rest i) + countById l₂ i
      rw [ih]
      omega

/-- One queued request on the `Register` or `Unregister` channel. -/
inductive RegOp where
  | reg (c : Client)
  | unreg (c : Client)
deriving DecidableEq

def RegOp.client : RegOp → Client
  | .reg c => c
  | .unreg c => c

def applyRegOp (h : Hub) (o : RegOp) : Hub :=
  match o with
  | .reg c => h.register c
  | .unreg c => h.unregister c

/-- `Hub.Run` serving a sequence of register/unregister requests. -/
def runOps (ops : List RegOp) (h : Hub) : Hub :=
  ops.foldl applyRegOp h

/-- The clients of the register operations, in order. -/
def regClients : List RegOp → List Client
  | [] => []
  | .reg c :: rest => c :: regClients rest
  | .unreg _ :: rest => regClients rest

/-- Well-formed operation sequences, as produced by the repository: one Go
pointer is one `Client` record (equal ids mean equal records) and no
pointer is registered twice (every accepted websocket connection allocates
a fresh `*Client`). -/
def OpsWF (ops : List RegOp) : Prop :=
  (∀ o ∈ ops, ∀ o₂ ∈ ops, (RegOp.client o).id = (RegOp.client o₂).id →
      RegOp.client o = RegOp.client o₂) ∧
    NodupIds (regClients ops)

/-- The connections registered and not since unregistered, computed purely
from the operation sequence (starting from the active list `acc`). -/
def regActiveFrom : List RegOp → List Client → List Client
  | [], acc => acc
  | .reg c :: rest, acc => regActiveFrom rest (acc ++ [c])
  | .unreg c :: rest, acc => regActiveFrom rest (acc.filter fun x => x.id != c.id)

def regActive (ops : List RegOp) : List Client :=
  regActiveFrom ops []

/-- The registry invariant tying `h.Clients` to the presence index. -/
structure HubInv (h : Hub) : Prop where
  nodup : NodupIds h.clients
  inSlice : ∀ c ∈ h.clients, c ∈ h.getUserConnections c.TeamID c.UserID
  countOne : ∀ c ∈ h.clients, countById (h.getUserConnections c.TeamID c.UserID) c.id = 1
  own : ∀ T U c, c ∈ h.getUserConnections T U → c.TeamID = T ∧ c.UserID = U
  sliceReg : ∀ T U c, c ∈ h.getUserConnections T U → c ∈ h.clients

theorem hubInv_newHub : HubInv NewHub := by
  refine ⟨?_, ?_, ?_, ?_, ?_⟩ <;>
    simp [NewHub, NodupIds, Hub.getUserConnections, alookup]

theorem hubInv_register (h : Hub) (c : Client) (hinv : HubInv h)
    (hfresh : hasClient h.clients c.id = false) : HubInv (h.register c) := by
  have hfresh' : ∀ x ∈ h.clients, x.id ≠ c.id :=
    (hasClient_eq_false_iff _ _).mp hfresh
  have hcl : (h.register c).clients = h.clients ++ [c] :=
    register_clients_not_present h c hfresh
  have hslice := register_getUserConnections h c
  constructor
  · rw [NodupIds, hcl, List.pairwise_append]
    refine ⟨hinv.nodup, List.pairwise_singleton _ _, ?_⟩
    intro a ha b hb
    rw [List.mem_singleton] at hb
    subst hb
    exact hfresh' a ha
  · intro x hx
    rw [hcl] at hx
    rcases List.mem_append.mp hx with hx' | hx'
    · rw [hslice]
      by_cases hid : x.TeamID = c.TeamID ∧ x.UserID = c.UserID
      · rw [if_pos hid]
        exact List.mem_append_left _ (hinv.inSlice x hx')
      · rw [if_neg hid]
        exact hinv.inSlice x hx'
    · rw [List.mem_singleton] at hx'
      subst hx'
      rw [hslice, if_pos ⟨rfl, rfl⟩]
      exact List.mem_append_right _ (List.mem_singleton_self _)
  · intro x hx
    rw [hcl] at hx
    rcases List.mem_append.mp hx with hx' | hx'
    · rw [hslice]
      by_cases hid : x.TeamID = c.TeamID ∧ x.UserID = c.UserID
      · rw [if_pos hid, countById_append, hinv.countOne x hx']
        have : countById [c] x.id = 0 := by
          rw [countById_eq_zero]
          intro b hb
          rw [List.mem_singleton] at hb
          subst hb
          exact fun hc => hfresh' x hx' hc.symm
        omega
      · rw [if_neg hid]
        exact hinv.countOne x hx'
    · rw [List.mem_singleton] at hx'
      subst hx'
      rw [hslice, if_pos ⟨rfl, rfl⟩, countById_append]
      have h0 : countById (h.getUserConnections x.TeamID x.UserID) x.id = 0 := by
        rw [countById_eq_zero]
        intro b hb
        exact hfresh' b (hinv.sliceReg _ _ b hb)
      rw [h0]
      simp [countById]
  · intro T U y hy
    rw [hslice] at hy
    by_cases hid : T = c.TeamID ∧ U = c.UserID
    · rw [if_pos hid] at hy
      rcases List.mem_append.mp hy with hy' | hy'
      · exact hinv.own T U y hy'
      · rw [List.mem_singleton] at hy'
        subst hy'
        exact ⟨hid.1.symm, hid.2.symm⟩
    · rw [if_neg hid] at hy
      exact hinv.own T U y hy
  · intro T U y hy
    rw [hslice] at hy
    rw [hcl]
    by_cases hid : T = c.TeamID ∧ U = c.UserID
    · rw [if_pos hid] at hy
      rcases List.mem_append.mp hy with hy' | hy'
      · exact List.mem_append_left _ (hinv.sliceReg T U y hy')
      · rw [List.mem_singleton] at hy'
        subst hy'
        exact List.mem_append_right _ (List.mem_singleton_self _)
    · rw [if_neg hid] at hy
      exact List.mem_append_left _ (hinv.sliceReg T U y hy)

theorem hubInv_unregister (h : Hub) (c : Client) (hinv : HubInv h)
    (hdet : ∀ x ∈ h.clients, x.id = c.id → x = c) : HubInv (h.unregister c) := by
  cases hp : hasClient h.clients c.id with
  | false =>
      rw [unregister_not_present h c hp]
      exact hinv
  | true =>
      have hcl : (h.unregister c).clients = removeClient h.clients c.id :=
        unregister_clients h c hp
      have hslice := unregister_getUserConnections h c hp
      have hcmem : c ∈ h.clients := by
        obtain ⟨x, hx, hxid⟩ := (hasClient_iff _ _).mp hp
        have hxc := hdet x hx hxid
        rwa [hxc] at hx
      constructor
      · rw [NodupIds, hcl]
        exact List.Pairwise.filter _ hinv.nodup
      · intro x hx
        rw [hcl] at hx
        obtain ⟨hx', hxne⟩ := (mem_removeClient _ _ _).mp hx
        rw [hslice]
        by_cases hid : x.TeamID = c.TeamID ∧ x.UserID = c.UserID
        · rw [if_pos hid]
          exact mem_removeFirstById _ _ _ (hinv.inSlice x hx') hxne
        · rw [if_neg hid]
          exact hinv.inSlice x hx'
      · intro x hx
        rw [hcl] at hx
        obtain ⟨hx', hxne⟩ := (mem_removeClient _ _ _).mp hx
        rw [hslice]
        by_cases hid : x.TeamID = c.TeamID ∧ x.UserID = c.UserID
        · rw [if_pos hid, countById_removeFirstById_ne _ _ _ hxne]
          exact hinv.countOne x hx'
        · rw [if_neg hid]
          exact hinv.countOne x hx'
      · intro T U y hy
        rw [hslice] at hy
        by_cases hid : T = c.TeamID ∧ U = c.UserID
        · rw [if_pos hid] at hy
          exact hinv.own T U y (removeFirstById_subset _ _ _ hy)
        · rw [if_neg hid] at hy
          exact hinv.own T U y hy
      · intro T U y hy
        rw [hslice] at hy
        rw [hcl]
        have hyslice : y ∈ h.getUserConnections T U := by
          by_cases hid : T = c.TeamID ∧ U = c.UserID
          · rw [if_pos hid] at hy
            exact removeFirstById_subset _ _ _ hy
          · rw [if_neg hid] at hy
            exact hy
        have hymem : y ∈ h.clients := hinv.sliceReg T U y hyslice
        refine (mem_removeClient _ _ _).mpr ⟨hymem, ?_⟩
        intro hyid
        have hyc : y = c := hdet y hymem hyid
        have hown := hinv.own T U y hyslice
        have hidc : T = c.TeamID ∧ U = c.UserID := by
          rw [← hyc]
          exact ⟨hown.1.symm, hown.2.symm⟩
        rw [if_pos hidc] at hy
        have h1 : countById (h.getUserConnections T U) c.id = 1 := by
          rw [hidc.1, hidc.2]
          exact hinv.countOne c hcmem
        have h0 : countById (removeFirstById (h.getUserConnections T U) c.id) c.id = 0 := by
          rw [countById_removeFirstById, h1]
        exact (countById_eq_zero _ _).mp h0 y hy hyid

theorem runOps_spec (ops : List RegOp) :
    ∀ h : Hub, HubInv h →
      (∀ x ∈ h.clients, ∀ o ∈ ops, x.id = (RegOp.client o).id → x = RegOp.client o) →
      NodupIds (h.clients ++ regClients ops) →
      (∀ o ∈ ops, ∀ o₂ ∈ ops, (RegOp.client o).id = (RegOp.client o₂).id →
        RegOp.client o = RegOp.client o₂) →
      HubInv (runOps ops h) ∧ (runOps ops h).clients = regActiveFrom ops h.clients := by
  induction ops with
  | nil =>
      intro h hinv _ _ _
      exact ⟨hinv, rfl⟩
  | cons o rest ih =>
      intro h hinv hyp1 hyp2 hyp3
      have hyp3r : ∀ o₁ ∈ rest, ∀ o₂ ∈ rest, (RegOp.client o₁).id = (RegOp.client o₂).id →
          RegOp.client o₁ = RegOp.client o₂ :=
        fun o₁ ho₁ o₂ ho₂ =>
          hyp3 o₁ (List.mem_cons_of_mem _ ho₁) o₂ (List.mem_cons_of_mem _ ho₂)
      cases o with
      | reg c =>
          have hfresh : hasClient h.clients c.id = false := by
            rw [hasClient_eq_false_iff]
            intro x hx
            exact (List.pairwise_append.mp hyp2).2.2 x hx c (List.mem_cons_self _ _)
          have hinv' := hubInv_register h c hinv hfresh
          have hcl : (h.register c).clients = h.clients ++ [c] :=
            register_clients_not_present h c hfresh
          have hyp1r : ∀ x ∈ (h.register c).clients, ∀ o ∈ rest,
              x.id = (RegOp.client o).id → x = RegOp.client o := by
            intro x hx o ho hid
            rw [hcl] at hx
            rcases List.mem_append.mp hx with hx' | hx'
            · exact hyp1 x hx' o (List.mem_cons_of_mem _ ho) hid
            · rw [List.mem_singleton] at hx'
              subst hx'
              exact hyp3 (RegOp.reg x) (List.mem_cons_self _ _) o
                (List.mem_cons_of_mem _ ho) hid
          have hyp2r : NodupIds ((h.register c).clients ++ regClients rest) := by
            rw [hcl, List.append_assoc]
            exact hyp2
          obtain ⟨hI, hC⟩ := ih (h.register c) hinv' hyp1r hyp2r hyp3r
          refine ⟨hI, ?_⟩
          show (runOps rest (h.register c)).clients =
            regActiveFrom rest (h.clients ++ [c])
          rw [hC, hcl]
      | unreg c =>
          have hdet : ∀ x ∈ h.clients, x.id = c.id → x = c := by
            intro x hx hid
            exact hyp1 x hx (RegOp.unreg c) (List.mem_cons_self _ _) hid
          have hinv' := hubInv_unregister h c hinv hdet
          have hclu : (h.unregister c).clients = h.clients.filter fun x => x.id != c.id := by
            cases hp : hasClient h.clients c.id with
            | true =>
                rw [unregister_clients h c hp]
                rfl
            | false =>
                rw [unregister_not_present h c hp]
                have hall : ∀ x ∈ h.clients, (fun x : Client => x.id != c.id) x = true := by
                  intro x hx
                  rw [bne_iff_ne]
                  exact (hasClient_eq_false_iff _ _).mp hp x hx
                rw [List.filter_eq_self.mpr hall]
          have hyp1r : ∀ x ∈ (h.unregister c).clients, ∀ o ∈ rest,
              x.id = (RegOp.client o).id → x = RegOp.client o := by
            intro x hx o ho hid
            rw [hclu] at hx
            exact hyp1 x (List.mem_of_mem_filter hx) o (List.mem_cons_of_mem _ ho) hid
          have hyp2r : NodupIds ((h.unregister c).clients ++ regClients rest) := by
            rw [hclu]
            exact List.Pairwise.sublist
              (List.Sublist.append (List.filter_sublist _) (List.Sublist.refl _)) hyp2
          obtain ⟨hI, hC⟩ := ih (h.unregister c) hinv' hyp1r hyp2r hyp3r
          refine ⟨hI, ?_⟩
          show (runOps rest (h.unregister c)).clients =
            regActiveFrom rest (h.clients.filter fun x => x.id != c.id)
          rw [hC, hclu]

/-- Running a well-formed operation sequence from the fresh hub yields the
registry invariant, and `h.Clients` is exactly the set of connections
registered and not since unregistered. -/
theorem runOps_newHub (ops : List RegOp) (hwf : OpsWF ops) :
    HubInv (runOps ops NewHub) ∧ (runOps ops NewHub).clients = regActive ops :=
  runOps_spec ops NewHub hubInv_newHub
    (fun x hx => absurd hx (List.not_mem_nil x))
    hwf.2
    hwf.1

/-! ### Derived lookup helpers and pruning lemmas -/

/-- The connections visited by `BroadcastToTeam` for a team (empty when the
team or its `"userConnection"` map is absent). -/
def teamMembers (h : Hub) (T : String) : List Client :=
  flattenUsers ((alookup ((alookup h.teamChannels T).getD []) "userConnection").getD [])

def lookupTeam (h : Hub) (T : String) :
    Option (List (String × List (String × List Client))) :=
  alookup h.teamChannels T

def lookupUserConn (h : Hub) (T : String) : Option (List (String × List Client)) :=
  match alookup h.teamChannels T with
  | none => none
  | some tm => alookup tm "userConnection"

def lookupUserSlice (h : Hub) (T U : String) : Option (List Client) :=
  match lookupUserConn h T with
  | none => none
  | some uc => alookup uc U

theorem broadcastToTeam_eq_loop (h : Hub) (T msg : String) :
    h.broadcastToTeam T msg = bcastLoop msg (teamMembers h T) h := by
  rw [Hub.broadcastToTeam, teamMembers]
  cases htm : alookup h.teamChannels T with
  | none => simp [flattenUsers, bcastLoop, alookup]
  | some tm =>
      cases huc : alookup tm "userConnection" with
      | none => simp [huc, flattenUsers, bcastLoop]
      | some uc => simp [huc]

theorem getUserConnections_eq_of_teamChannels (h₁ h₂ : Hub)
    (hEq : h₁.teamChannels = h₂.teamChannels) (T U : String) :
    h₁.getUserConnections T U = h₂.getUserConnections T U := by
  rw [getUserConnections_eq_chain, getUserConnections_eq_chain, hEq]

theorem unregUsers_no_empty (uc : List (String × List Client)) (c : Client)
    (cs' : List Client) (hl : alookup (unregUsers uc c) c.UserID = some cs') :
    cs' ≠ [] := by
  cases hus : alookup uc c.UserID with
  | none =>
      simp only [unregUsers, hus] at hl
      exact Option.noConfusion hl
  | some cs =>
      simp only [unregUsers, hus] at hl
      by_cases hemp : (removeFirstById cs c.id).length = 0
      · rw [if_pos hemp, alookup_aerase, if_pos rfl] at hl
        cases hl
      · rw [if_neg hemp, alookup_aupdate_self] at hl
        rw [← Option.some_inj.mp hl]
        intro hnil
        rw [hnil] at hemp
        exact hemp rfl

theorem unregTeamMap_no_empty (tm : List (String × List (String × List Client)))
    (c : Client) (uc' : List (String × List Client))
    (hl : alookup (unregTeamMap tm c) "userConnection" = some uc') : uc' ≠ [] := by
  cases huc : alookup tm "userConnection" with
  | none =>
      simp only [unregTeamMap, huc] at hl
      exact Option.noConfusion hl
  | some uc =>
      simp only [unregTeamMap, huc] at hl
      by_cases hemp : (unregUsers uc c).length = 0
      · rw [if_pos hemp, alookup_aerase, if_pos rfl] at hl
        cases hl
      · rw [if_neg hemp, alookup_aupdate_self] at hl
        rw [← Option.some_inj.mp hl]
        intro hnil
        rw [hnil] at hemp
        exact hemp rfl

theorem unregTeam_no_empty
    (tcs : List (String × List (String × List (String × List Client)))) (c : Client)
    (tm' : List (String × List (String × List Client)))
    (hl : alookup (unregTeam tcs c) c.TeamID = some tm') : tm' ≠ [] := by
  cases htm : alookup tcs c.TeamID with
  | none =>
      simp only [unregTeam, htm] at hl
      exact Option.noConfusion hl
  | some tm =>
      simp only [unregTeam, htm] at hl
      by_cases hemp : (unregTeamMap tm c).length = 0
      · rw [if_pos hemp, alookup_aerase, if_pos rfl] at hl
        cases hl
      · rw [if_neg hemp, alookup_aupdate_self] at hl
        rw [← Option.some_inj.mp hl]
        intro hnil
        rw [hnil] at hemp
        exact hemp rfl

/-- After `unregister`, the team entry of the client either is gone or
holds exactly the `unregTeamMap`-image of the old team map. -/
theorem unregTeam_lookup_cases
    (tcs : List (String × List (String × List (String × List Client)))) (c : Client) :
    alookup (unregTeam tcs c) c.TeamID = none ∨
      ∃ tm, alookup tcs c.TeamID = some tm ∧
        alookup (unregTeam tcs c) c.TeamID = some (unregTeamMap tm c) := by
  cases htm : alookup tcs c.TeamID with
  | none =>
      left
      simp only [unregTeam, htm]
  | some tm =>
      simp only [unregTeam, htm]
      by_cases hemp : (unregTeamMap tm c).length = 0
      · left
        rw [if_pos hemp, alookup_aerase, if_pos rfl]
      · right
        exact ⟨tm, rfl, by rw [if_neg hemp, alookup_aupdate_self]⟩

theorem unregTeamMap_lookup_cases (tm : List (String × List (String × List Client)))
    (c : Client) :
    alookup (unregTeamMap tm c) "userConnection" = none ∨
      ∃ uc, alookup tm "userConnection" = some uc ∧
        alookup (unregTeamMap tm c) "userConnection" = some (unregUsers uc c) := by
  cases huc : alookup tm "userConnection" with
  | none =>
      left
      simp only [unregTeamMap, huc]
  | some uc =>
      simp only [unregTeamMap, huc]
      by_cases hemp : (unregUsers uc c).length = 0
      · left
        rw [if_pos hemp, alookup_aerase, if_pos rfl]
      · right
        exact ⟨uc, rfl, by rw [if_neg hemp, alookup_aupdate_self]⟩

/-! ### Consequences of the registry invariant -/

theorem hubInv_mem_iff (h : Hub) (hinv : HubInv h) (c : Client) :
    c ∈ h.clients ↔ c ∈ h.getUserConnections c.TeamID c.UserID :=
  ⟨fun hc => hinv.inSlice c hc, fun hc => hinv.sliceReg _ _ c hc⟩

theorem hubInv_isUserConnected (h : Hub) (hinv : HubInv h) (T U : String) :
    h.isUserConnected T U = true ↔
      ∃ c ∈ h.clients, c.TeamID = T ∧ c.UserID = U := by
  rw [Hub.isUserConnected, decide_eq_true_iff]
  constructor
  · intro hlen
    have hne : h.getUserConnections T U ≠ [] := by
      intro hnil
      rw [hnil] at hlen
      exact absurd hlen (by simp)
    obtain ⟨c, hc⟩ := List.exists_mem_of_ne_nil _ hne
    exact ⟨c, hinv.sliceReg T U c hc, hinv.own T U c hc⟩
  · rintro ⟨c, hcmem, hT, hU⟩
    have hin := hinv.inSlice c hcmem
    rw [hT, hU] at hin
    exact List.length_pos_of_mem hin

/-! ### Concrete example states (used by witnesses and counterexamples) -/

/-- Connection A of the end-to-end scenario: user "42" in team "7". -/
def exClientA : Client := { id := 1, UserID := "42", TeamID := "7" }

/-- Connection B: user "99" in team "7". -/
def exClientB : Client := { id := 2, UserID := "99", TeamID := "7" }

/-- A second device of user "42" in team "7" (fresh pointer, same identity). -/
def exClientA2 : Client := { id := 3, UserID := "42", TeamID := "7" }

/-- A pointer that is never registered. -/
def exClientAbsent : Client := { id := 9, UserID := "5", TeamID := "8" }

/-- The channel created with every client: `make(chan []byte, 256)`. -/
def freshChan : ChanState := { cap := clientSendCap, buf := [], closed := false }

/-- Hub with only connection A registered (its channel freshly made). -/
def exHubA : Hub := (NewHub.withChan 1 freshChan).register exClientA

/-- Hub of the end-to-end scenario: A and B registered in team "7". -/
def exHub : Hub :=
  (((NewHub.withChan 1 freshChan).withChan 2 freshChan).register exClientA).register
    exClientB

/-- Hub with the channels of pointers 1 and 3 made, and only A registered. -/
def exHubA13 : Hub :=
  ((NewHub.withChan 1 freshChan).withChan 3 freshChan).register exClientA

/-- Hub with two devices of user "42" registered. -/
def exHubTwoDev : Hub :=
  (((NewHub.withChan 1 freshChan).withChan 3 freshChan).register exClientA).register
    exClientA2

/-- `n` broadcast deliveries to every client. -/
def fillBroadcasts : Nat → Hub → Hub
  | 0, h => h
  | n + 1, h => fillBroadcasts n (h.broadcastAll "fill")

/-- Connection A after 256 broadcasts: its 256-slot buffer is exactly full,
and it is still registered in both indexes. -/
def exHubSaturated : Hub := fillBroadcasts 256 exHubA

/-- One more broadcast on the saturated hub: A is dropped from `Clients`
(and its channel closed) but left in `TeamChannels`. -/
def exHubDropped : Hub := exHubSaturated.broadcastAll "overflow"

instance (l : List Client) : Decidable (NodupIds l) := by
  unfold NodupIds
  infer_instance

instance (ops : List RegOp) : Decidable (OpsWF ops) := by
  unfold OpsWF
  infer_instance

theorem sendMessageToUser_eq_loop (h : Hub) (T U msg : String)
    (hne : ¬(h.getUserConnections T U).length = 0) :
    h.sendMessageToUser T U msg = sendLoop msg (h.getUserConnections T U) (false, h) := by
  rw [Hub.sendMessageToUser, if_neg hne]

theorem sendMessageToUser_of_empty (h : Hub) (T U msg : String)
    (hnil : (h.getUserConnections T U).length = 0) :
    h.sendMessageToUser T U msg = (false, h) := by
  rw [Hub.sendMessageToUser, if_pos hnil]

/-! ### The claims -/

/-- C1: for every (teamID, userID, payload), `SendMessageToUser` attempts a
non-blocking enqueue to every connection indexed for that user in that
team and returns true iff at least one enqueue succeeded; a connection
with a full outbound buffer is skipped without blocking, error, or any
state change (its channel, the indexes, and everything else are left
intact), and the call returns false when the user has no indexed
connections. -/
theorem websocket_C1_sendMessageToUser (h : Hub) (T U msg : String)
    (hnd : NodupIds (h.getUserConnections T U))
    (hopen : ∀ c ∈ h.getUserConnections T U, (h.getChan c.id).closed = false) :
    ((h.sendMessageToUser T U msg).1 = true ↔
        ∃ c ∈ h.getUserConnections T U,
          (h.getChan c.id).buf.length < (h.getChan c.id).cap) ∧
      (∀ c ∈ h.getUserConnections T U,
        ¬(h.getChan c.id).buf.length < (h.getChan c.id).cap →
          (h.sendMessageToUser T U msg).2.getChan c.id = h.getChan c.id) ∧
      (∀ c ∈ h.getUserConnections T U,
        (h.getChan c.id).buf.length < (h.getChan c.id).cap →
          (h.sendMessageToUser T U msg).2.getChan c.id =
            { h.getChan c.id with buf := (h.getChan c.id).buf ++ [msg] }) ∧
      (h.sendMessageToUser T U msg).2.clients = h.clients ∧
      (h.sendMessageToUser T U msg).2.teamChannels = h.teamChannels ∧
      (h.getUserConnections T U = [] → (h.sendMessageToUser T U msg).1 = false) := by
  by_cases hnil : (h.getUserConnections T U).length = 0
  · have hnil' : h.getUserConnections T U = [] := List.length_eq_zero.mp hnil
    rw [sendMessageToUser_of_empty h T U msg hnil, hnil']
    simp
  · rw [sendMessageToUser_eq_loop h T U msg hnil]
    refine ⟨?_, ?_, ?_, sendLoop_clients _ _ _, sendLoop_teamChannels _ _ _, ?_⟩
    · rw [sendLoop_fst_iff msg _ _ hnd hopen]
      simp
    · intro c hc hfull
      exact sendLoop_skip msg _ _ c hnd hc (chanTrySend_none_of_full _ _ hfull)
    · intro c hc hroom
      exact (sendLoop_deliver msg _ _ c _ hnd hc
        (chanTrySend_some_of _ _ (hopen c hc) hroom)).1
    · intro h0
      rw [h0] at hnil
      exact absurd rfl hnil

/-- Witness for C1 on concrete hubs: a delivery to user "42" in team "7"
succeeds and leaves the indexes alone; a send to a user whose only
connection is saturated returns false; a send to a user with no
connections returns false. -/
theorem websocket_C1_witness :
    (exHub.sendMessageToUser "7" "42" "m").1 = true ∧
    (exHub.sendMessageToUser "7" "42" "m").2.teamChannels = exHub.teamChannels ∧
    (exHubSaturated.sendMessageToUser "7" "42" "x").1 = false ∧
    (NewHub.sendMessageToUser "7" "42" "x").1 = false := by
  have h1 := websocket_C1_sendMessageToUser exHub "7" "42" "m" (by decide) (by decide)
  have h2 := websocket_C1_sendMessageToUser exHubSaturated "7" "42" "x" (by decide)
    (by decide)
  have h3 := websocket_C1_sendMessageToUser NewHub "7" "42" "x" (by decide) (by decide)
  refine ⟨h1.1.mpr ⟨exClientA, by decide, by decide⟩, h1.2.2.2.2.1, ?_,
    h3.2.2.2.2.2 (by decide)⟩
  cases hb : (exHubSaturated.sendMessageToUser "7" "42" "x").1 with
  | false => rfl
  | true =>
      exfalso
      obtain ⟨c, hc, hroom⟩ := h2.1.mp hb
      have hcs : exHubSaturated.getUserConnections "7" "42" = [exClientA] := by decide
      rw [hcs, List.mem_singleton] at hc
      subst hc
      exact (by decide :
        ¬(exHubSaturated.getChan exClientA.id).buf.length <
          (exHubSaturated.getChan exClientA.id).cap) hroom

/-- The decoded form of the inbound frame of the end-to-end scenario,
`\x7b"type":"message","content":"hi"\x7d` (absent fields decode to ""). -/
def exInboundMsg : Message :=
  { ty := "message", content := "hi", TeamID := "", UserID := "" }

/-- The frame the server is expected to relay for that inbound frame. -/
def exRelayedFrame : String :=
  "\x7b\"type\":\"message\",\"content\":\"hi\",\"team_id\":\"7\",\"user_id\":\"42\"\x7d"

/-- C2: an inbound frame that fails to decode is silently discarded and
the hub is untouched; a decoded frame has its user and team fields
overwritten with the identity bound to the originating connection, is
re-encoded, and is broadcast to the connection team.  In the concrete
scenario, an inbound frame decoding to (type "message", content "hi") on
connection A (team "7", user "42") lands as the full stamped JSON frame in
the outbound buffers of both A itself and B (same team), client-supplied
identity fields notwithstanding. -/
theorem websocket_C2_readPumpRelay (c : Client) (h : Hub) (m : Message) :
    readPumpStep c none h = h ∧
    readPumpStep c (some m) h =
      h.broadcastToTeam c.TeamID
        (Message.encode { m with UserID := c.UserID, TeamID := c.TeamID }) ∧
    Message.encode { exInboundMsg with UserID := "42", TeamID := "7" } = exRelayedFrame ∧
    ((readPumpStep exClientA (some exInboundMsg) exHub).getChan 1).buf =
      [exRelayedFrame] ∧
    ((readPumpStep exClientA (some exInboundMsg) exHub).getChan 2).buf =
      [exRelayedFrame] :=
  ⟨rfl, rfl, by decide, by decide, by decide⟩

/-- C3 as stated is false: a broadcast delivery that finds connection A
saturated closes and removes A from `Clients` but leaves it indexed in
`TeamChannels`, so afterwards A is a member of exactly one of the two
indexes. -/
theorem websocket_C3_counterexample :
    ¬((exClientA ∈ exHubDropped.clients) ↔
      exClientA ∈ exHubDropped.getUserConnections exClientA.TeamID exClientA.UserID) := by
  decide

/-- C3 (amended): after any well-formed sequence of register and
unregister operations (broadcast deliveries excluded: a delivery that
drops a saturated connection removes it from `Clients` only), a
connection is in `Clients` iff it is in its team/user slice of
`TeamChannels`. -/
theorem websocket_C3_amended (ops : List RegOp) (hwf : OpsWF ops) (c : Client) :
    c ∈ (runOps ops NewHub).clients ↔
      c ∈ (runOps ops NewHub).getUserConnections c.TeamID c.UserID :=
  hubInv_mem_iff _ (runOps_newHub ops hwf).1 c

/-- A concrete register/unregister sequence for the amended C3. -/
def exOps : List RegOp :=
  [RegOp.reg exClientA, RegOp.reg exClientB, RegOp.unreg exClientA]

/-- Witness for the amended C3. -/
theorem websocket_C3_witness :
    (exClientB ∈ (runOps exOps NewHub).clients ↔
      exClientB ∈ (runOps exOps NewHub).getUserConnections exClientB.TeamID
        exClientB.UserID) ∧
    exClientB ∈ (runOps exOps NewHub).clients :=
  ⟨websocket_C3_amended exOps (by decide) exClientB, by decide⟩

/-- C4: unregistering an absent connection is a silent no-op (no panic, no
close, no state change); unregistering a present connection removes it
from `Clients` and from its team/user slice, leaves every other slice
alone, leaves no emptied user slice, `"userConnection"` map, or team entry
behind, closes its outbound buffer, and a second unregister of the same
connection is then a no-op (the buffer is closed exactly once). -/
theorem websocket_C4_unregisterIdempotent (h : Hub) (c : Client) :
    (hasClient h.clients c.id = false → h.unregister c = h) ∧
    (hasClient h.clients c.id = true →
      countById (h.getUserConnections c.TeamID c.UserID) c.id = 1 →
      ((h.unregister c).clients = removeClient h.clients c.id ∧
        hasClient (h.unregister c).clients c.id = false ∧
        (h.unregister c).getUserConnections c.TeamID c.UserID =
          removeFirstById (h.getUserConnections c.TeamID c.UserID) c.id ∧
        countById ((h.unregister c).getUserConnections c.TeamID c.UserID) c.id = 0 ∧
        (∀ T U, ¬(T = c.TeamID ∧ U = c.UserID) →
          (h.unregister c).getUserConnections T U = h.getUserConnections T U) ∧
        (h.unregister c).getChan c.id = { h.getChan c.id with closed := true } ∧
        (∀ tm', lookupTeam (h.unregister c) c.TeamID = some tm' → tm' ≠ []) ∧
        (∀ uc', lookupUserConn (h.unregister c) c.TeamID = some uc' → uc' ≠ []) ∧
        (∀ cs', lookupUserSlice (h.unregister c) c.TeamID c.UserID = some cs' →
          cs' ≠ []) ∧
        (h.unregister c).unregister c = h.unregister c)) := by
  constructor
  · exact unregister_not_present h c
  · intro hp hcount
    have hslice := unregister_getUserConnections h c hp
    have htc := unregister_teamChannels h c hp
    have hself := hslice c.TeamID c.UserID
    rw [if_pos ⟨rfl, rfl⟩] at hself
    refine ⟨unregister_clients h c hp, ?_, hself, ?_, ?_,
      unregister_getChan_self h c hp, ?_, ?_, ?_, ?_⟩
    · rw [unregister_clients h c hp]
      exact hasClient_removeClient_self _ _
    · rw [hself, countById_removeFirstById, hcount]
    · intro T U hTU
      have := hslice T U
      rw [if_neg hTU] at this
      exact this
    · intro tm' hl
      rw [lookupTeam, htc] at hl
      exact unregTeam_no_empty _ _ _ hl
    · intro uc' hl
      simp only [lookupUserConn, htc] at hl
      rcases unregTeam_lookup_cases h.teamChannels c with hnone | ⟨tm, htm, hsome⟩
      · simp only [hnone] at hl
        exact Option.noConfusion hl
      · simp only [hsome] at hl
        exact unregTeamMap_no_empty _ _ _ hl
    · intro cs' hl
      simp only [lookupUserSlice, lookupUserConn, htc] at hl
      rcases unregTeam_lookup_cases h.teamChannels c with hnone | ⟨tm, htm, hsome⟩
      · simp only [hnone] at hl
        exact Option.noConfusion hl
      · simp only [hsome] at hl
        rcases unregTeamMap_lookup_cases tm c with hnone2 | ⟨uc, huc, hsome2⟩
        · simp only [hnone2] at hl
          exact Option.noConfusion hl
        · simp only [hsome2] at hl
          exact unregUsers_no_empty _ _ _ hl
    · apply unregister_not_present
      rw [unregister_clients h c hp]
      exact hasClient_removeClient_self _ _

/-- Witness for C4: unregistering a never-registered pointer leaves the
concrete hub untouched, and unregistering B removes it and is idempotent. -/
theorem websocket_C4_witness :
    exHub.unregister exClientAbsent = exHub ∧
    hasClient (exHub.unregister exClientB).clients 2 = false ∧
    (exHub.unregister exClientB).unregister exClientB = exHub.unregister exClientB := by
  have h1 := websocket_C4_unregisterIdempotent exHub exClientAbsent
  have h2 := websocket_C4_unregisterIdempotent exHub exClientB
  refine ⟨h1.1 (by decide), ?_, ?_⟩
  · exact (h2.2 (by decide) (by decide)).2.1
  · exact (h2.2 (by decide) (by decide)).2.2.2.2.2.2.2.2.2

/-- C5: in the broadcast-to-all path, a connection whose buffer is full
when the enqueue is attempted has its buffer closed and is removed from
`Clients`, while the `TeamChannels` index (hence every team/user slice) is
left entirely unchanged; a connection with room receives the payload and
stays in `Clients` (and, the index being untouched, in `TeamChannels`). -/
theorem websocket_C5_broadcastDropAsymmetry (h : Hub) (msg : String) (c : Client)
    (hnd : NodupIds h.clients) (hmem : c ∈ h.clients)
    (hopen : (h.getChan c.id).closed = false) :
    (h.broadcastAll msg).teamChannels = h.teamChannels ∧
    (∀ T U, (h.broadcastAll msg).getUserConnections T U = h.getUserConnections T U) ∧
    (¬(h.getChan c.id).buf.length < (h.getChan c.id).cap →
      hasClient (h.broadcastAll msg).clients c.id = false ∧
      (h.broadcastAll msg).getChan c.id = { h.getChan c.id with closed := true }) ∧
    ((h.getChan c.id).buf.length < (h.getChan c.id).cap →
      c ∈ (h.broadcastAll msg).clients ∧
      (h.broadcastAll msg).getChan c.id =
        { h.getChan c.id with buf := (h.getChan c.id).buf ++ [msg] }) := by
  have hTc : (h.broadcastAll msg).teamChannels = h.teamChannels :=
    bcastLoop_teamChannels _ _ _
  refine ⟨hTc, fun T U => getUserConnections_eq_of_teamChannels _ _ hTc T U, ?_, ?_⟩
  · intro hfull
    have hd := bcastLoop_drop msg h.clients h c hnd hmem
      (chanTrySend_none_of_full _ _ hfull)
    exact ⟨hd.2, hd.1⟩
  · intro hroom
    have hd := bcastLoop_deliver msg h.clients h c _ hnd hmem
      (chanTrySend_some_of _ _ hopen hroom)
    exact ⟨hd.2 hmem, hd.1⟩

/-- Witness for C5: dropping saturated A removes it from `Clients` but not
from `TeamChannels`; a broadcast with room delivers and keeps A. -/
theorem websocket_C5_witness :
    hasClient (exHubSaturated.broadcastAll "overflow").clients 1 = false ∧
    (exHubSaturated.broadcastAll "overflow").teamChannels =
      exHubSaturated.teamChannels ∧
    exClientA ∈ (exHub.broadcastAll "m").clients := by
  have h1 := websocket_C5_broadcastDropAsymmetry exHubSaturated "overflow" exClientA
    (by decide) (by decide) (by decide)
  have h2 := websocket_C5_broadcastDropAsymmetry exHub "m" exClientA
    (by decide) (by decide) (by decide)
  exact ⟨(h1.2.2.1 (by decide)).1, h1.1, (h2.2.2.2 (by decide)).1⟩

/-- C6: registering a second connection with the same (team, user)
identity appends a second independent entry to the user slice, and a
subsequent `SendMessageToUser` with both buffers open and non-full
enqueues the payload into both buffers and returns true. -/
theorem websocket_C6_multiDevice (h : Hub) (c₁ c₂ : Client) (msg : String)
    (hne : c₁.id ≠ c₂.id)
    (hteam : c₂.TeamID = c₁.TeamID) (huser : c₂.UserID = c₁.UserID)
    (hslice : h.getUserConnections c₁.TeamID c₁.UserID = [c₁])
    (hopen₁ : (h.getChan c₁.id).closed = false)
    (hopen₂ : (h.getChan c₂.id).closed = false)
    (hroom₁ : (h.getChan c₁.id).buf.length < (h.getChan c₁.id).cap)
    (hroom₂ : (h.getChan c₂.id).buf.length < (h.getChan c₂.id).cap) :
    (h.register c₂).getUserConnections c₁.TeamID c₁.UserID = [c₁, c₂] ∧
    ((h.register c₂).sendMessageToUser c₁.TeamID c₁.UserID msg).1 = true ∧
    (((h.register c₂).sendMessageToUser c₁.TeamID c₁.UserID msg).2.getChan c₁.id).buf =
      (h.getChan c₁.id).buf ++ [msg] ∧
    (((h.register c₂).sendMessageToUser c₁.TeamID c₁.UserID msg).2.getChan c₂.id).buf =
      (h.getChan c₂.id).buf ++ [msg] := by
  have hslice2 : (h.register c₂).getUserConnections c₁.TeamID c₁.UserID = [c₁, c₂] := by
    have hr := register_getUserConnections h c₂ c₁.TeamID c₁.UserID
    rw [if_pos ⟨hteam.symm, huser.symm⟩, hslice] at hr
    exact hr
  have hlen : ¬((h.register c₂).getUserConnections c₁.TeamID c₁.UserID).length = 0 := by
    rw [hslice2]
    simp
  have hnd2 : NodupIds [c₁, c₂] := by
    rw [NodupIds]
    refine List.pairwise_cons.mpr ⟨?_, List.pairwise_singleton _ _⟩
    intro b hb
    rw [List.mem_singleton] at hb
    subst hb
    exact hne
  have hsend := sendMessageToUser_eq_loop (h.register c₂) c₁.TeamID c₁.UserID msg hlen
  rw [hslice2] at hsend
  have hd₁ := sendLoop_deliver msg [c₁, c₂] (false, h.register c₂) c₁ _ hnd2
    (List.mem_cons_self _ _) (chanTrySend_some_of _ _ hopen₁ hroom₁)
  have hd₂ := sendLoop_deliver msg [c₁, c₂] (false, h.register c₂) c₂ _ hnd2
    (List.mem_cons_of_mem _ (List.mem_singleton_self _))
    (chanTrySend_some_of _ _ hopen₂ hroom₂)
  refine ⟨hslice2, ?_, ?_, ?_⟩
  · rw [hsend]
    exact hd₁.2
  · rw [hsend, hd₁.1]
    rfl
  · rw [hsend, hd₂.1]
    rfl

/-- Witness for C6: the second device of user "42" is appended and a
directed send reaches both devices. -/
theorem websocket_C6_witness :
    (exHubA13.register exClientA2).getUserConnections "7" "42" =
      [exClientA, exClientA2] ∧
    ((exHubA13.register exClientA2).sendMessageToUser "7" "42" "m").1 = true := by
  have h1 := websocket_C6_multiDevice exHubA13 exClientA exClientA2 "m" (by decide)
    (by decide) (by decide) (by decide) (by decide) (by decide) (by decide) (by decide)
  exact ⟨h1.1, h1.2.1⟩

/-- C7: over any well-formed sequence of register/unregister operations
from the fresh hub, `IsUserConnected(T, U)` returns true exactly while at
least one connection with identity (T, U) has been registered and not yet
unregistered — so it is false before the first registration and false
again once every such connection is unregistered. -/
theorem websocket_C7_presenceLifecycle (ops : List RegOp) (T U : String)
    (hwf : OpsWF ops) :
    (runOps ops NewHub).isUserConnected T U = true ↔
      ∃ c ∈ regActive ops, c.TeamID = T ∧ c.UserID = U := by
  obtain ⟨hinv, hcl⟩ := runOps_newHub ops hwf
  rw [hubInv_isUserConnected _ hinv, hcl]

/-- Witness for C7: the presence bit is false before registering A, true
after, and false again after unregistering A. -/
theorem websocket_C7_witness :
    (runOps [] NewHub).isUserConnected "7" "42" = false ∧
    (runOps [RegOp.reg exClientA] NewHub).isUserConnected "7" "42" = true ∧
    (runOps [RegOp.reg exClientA, RegOp.unreg exClientA] NewHub).isUserConnected
      "7" "42" = false := by
  have h1 := websocket_C7_presenceLifecycle [RegOp.reg exClientA] "7" "42" (by decide)
  have h2 := websocket_C7_presenceLifecycle
    [RegOp.reg exClientA, RegOp.unreg exClientA] "7" "42" (by decide)
  refine ⟨by decide, h1.mpr ⟨exClientA, by decide, rfl, rfl⟩, ?_⟩
  cases hb : (runOps [RegOp.reg exClientA, RegOp.unreg exClientA] NewHub).isUserConnected
      "7" "42" with
  | false => rfl
  | true =>
      exfalso
      obtain ⟨c, hc, _⟩ := h2.mp hb
      have hempty : regActive [RegOp.reg exClientA, RegOp.unreg exClientA] = [] := by
        decide
      rw [hempty] at hc
      exact List.not_mem_nil c hc

/-- The client of team "8" used by the isolation witness. -/
def exClientT2 : Client := { id := 4, UserID := "50", TeamID := "8" }

/-- Hub with connection A in team "7" and connection 4 in team "8". -/
def exHubTwoTeams : Hub :=
  (((NewHub.withChan 1 freshChan).withChan 4 freshChan).register exClientA).register
    exClientT2

/-- C8: `BroadcastToTeam(T1, payload)` touches only the buffers of
connections indexed under T1 — the channel of any pointer that is not a T1
member is left unchanged — while every T1 member with an open, non-full
buffer receives the payload; broadcasting to a team with no index entry is
a no-op. -/
theorem websocket_C8_teamIsolation (h : Hub) (T msg : String) :
    (∀ i, (∀ x ∈ teamMembers h T, x.id ≠ i) →
      (h.broadcastToTeam T msg).getChan i = h.getChan i) ∧
    (∀ c ∈ teamMembers h T, NodupIds (teamMembers h T) →
      (h.getChan c.id).closed = false →
      (h.getChan c.id).buf.length < (h.getChan c.id).cap →
      (h.broadcastToTeam T msg).getChan c.id =
        { h.getChan c.id with buf := (h.getChan c.id).buf ++ [msg] }) ∧
    (lookupTeam h T = none → h.broadcastToTeam T msg = h) := by
  refine ⟨?_, ?_, ?_⟩
  · intro i hni
    rw [broadcastToTeam_eq_loop]
    exact bcastLoop_getChan_of_ne _ _ _ _ hni
  · intro c hc hnd hopen hroom
    rw [broadcastToTeam_eq_loop]
    exact (bcastLoop_deliver msg _ h c _ hnd hc
      (chanTrySend_some_of _ _ hopen hroom)).1
  · intro hnone
    rw [lookupTeam] at hnone
    rw [Hub.broadcastToTeam]
    simp only [hnone]

/-- Witness for C8: broadcasting to team "7" leaves the buffer of the team
"8" connection untouched and delivers to A; broadcasting to the absent
team "9" changes nothing. -/
theorem websocket_C8_witness :
    (exHubTwoTeams.broadcastToTeam "7" "m").getChan 4 = exHubTwoTeams.getChan 4 ∧
    (exHubTwoTeams.broadcastToTeam "7" "m").getChan 1 =
      { exHubTwoTeams.getChan 1 with
          buf := (exHubTwoTeams.getChan 1).buf ++ ["m"] } ∧
    exHubTwoTeams.broadcastToTeam "9" "m" = exHubTwoTeams := by
  have h7 := websocket_C8_teamIsolation exHubTwoTeams "7" "m"
  have h9 := websocket_C8_teamIsolation exHubTwoTeams "9" "m"
  exact ⟨h7.1 4 (by decide),
    h7.2.1 exClientA (by decide) (by decide) (by decide) (by decide),
    h9.2.2 (by decide)⟩

/-- C9 fails on the code: the `Broadcast` branch of `Run` (and likewise
`BroadcastToTeam`) removes saturated connections from `h.Clients` while
holding only `h.mu.RLock()` — a shared read lock — whereas register and
unregister mutations do hold the exclusive lock.  At the saturated hub the
broadcast call demonstrably mutates the `Clients` index under the read
lock. -/
theorem websocket_C9_lockViolation :
    (HubCall.callBroadcastAll "overflow").lockMode = LockMode.readLock ∧
    (HubCall.callBroadcastToTeam "7" "overflow").lockMode = LockMode.readLock ∧
    (HubCall.callBroadcastAll "overflow").mutatesIndexes exHubSaturated ∧
    (HubCall.callRegister exClientA).lockMode = LockMode.writeLock ∧
    (HubCall.callUnregister exClientA).lockMode = LockMode.writeLock := by
  refine ⟨rfl, rfl, ?_, rfl, rfl⟩
  decide

/-- C10: when the only connection of a (team, user) pair is dropped by the
broadcast path because its buffer was full — buffer closed, removed from
`Clients`, left in `TeamChannels` — `IsUserConnected` still answers true
and `GetUserConnections` still returns that dead connection. -/
theorem websocket_C10_stalePresence (h : Hub) (msg : String) (c : Client)
    (hnd : NodupIds h.clients) (hmem : c ∈ h.clients)
    (hopen : (h.getChan c.id).closed = false)
    (hfull : ¬(h.getChan c.id).buf.length < (h.getChan c.id).cap)
    (hslice : h.getUserConnections c.TeamID c.UserID = [c]) :
    hasClient (h.broadcastAll msg).clients c.id = false ∧
    ((h.broadcastAll msg).getChan c.id).closed = true ∧
    (h.broadcastAll msg).getUserConnections c.TeamID c.UserID = [c] ∧
    (h.broadcastAll msg).isUserConnected c.TeamID c.UserID = true := by
  have hdrop := bcastLoop_drop msg h.clients h c hnd hmem
    (chanTrySend_none_of_full _ _ hfull)
  have hTc : (h.broadcastAll msg).teamChannels = h.teamChannels :=
    bcastLoop_teamChannels _ _ _
  have hslice2 : (h.broadcastAll msg).getUserConnections c.TeamID c.UserID = [c] := by
    rw [getUserConnections_eq_of_teamChannels _ _ hTc, hslice]
  refine ⟨hdrop.2, ?_, hslice2, ?_⟩
  · show ((bcastLoop msg h.clients h).getChan c.id).closed = true
    rw [hdrop.1]
  · rw [Hub.isUserConnected, hslice2]
    rfl

/-- Witness for C10: after the overflow broadcast drops A, the hub still
reports user "42" as connected in team "7" and still hands out A. -/
theorem websocket_C10_witness :
    hasClient (exHubSaturated.broadcastAll "overflow").clients 1 = false ∧
    (exHubSaturated.broadcastAll "overflow").isUserConnected "7" "42" = true ∧
    (exHubSaturated.broadcastAll "overflow").getUserConnections "7" "42" =
      [exClientA] := by
  have h1 := websocket_C10_stalePresence exHubSaturated "overflow" exClientA
    (by decide) (by decide) (by decide) (by decide) (by decide)
  exact ⟨h1.1, h1.2.2.2, h1.2.2.1⟩

end Eaven
